import Mathlib

set_option maxRecDepth 4000

/-!
Verification of the meeting orchestration system (repository yoke233/metting)
against its natural-language specification.

The repository ships the web console (TypeScript under web/src), the SQLite
storage schema (storage/schema.sql) and design documents.  Pure functions of
the web console and the storage relations are embedded directly from the
source.  The orchestration engine itself (meeting/domain, meeting/api) is not
part of the provided sources; where a property is decided by that engine, the
relevant operation is modelled from the specification and marked as such in
its doc comment.
-/

namespace Meeting

/-! ## JSON values (model of the JavaScript JSON data domain) -/

/-- Model of a parsed JSON value, as produced by JSON.parse. -/
inductive Json where
  | null : Json
  | bool (b : Bool) : Json
  | num (n : Int) : Json
  | str (s : String) : Json
  | arr (xs : List Json) : Json
  | obj (fields : List (String × Json)) : Json

/-! ## web/src/lib/format.ts -/

/-- Embedding of clampText from web/src/lib/format.ts:
if (!value) return ""; return value.length > max ? value.slice(0, max) + ellipsis : value.
JavaScript string falsiness for a string means the empty string. -/
def clampText (value : String) (max : Nat) : String :=
  if value = "" then ""
  else if max < value.length then value.take max ++ "…"
  else value

/-- Embedding of tryParseJson from web/src/lib/format.ts.  JSON.parse is a
JavaScript builtin that either returns a value or throws; it is modelled as a
function into Option Json passed as a parameter.  The try/catch means a parse
failure yields null rather than an exception. -/
def tryParseJson (parse : String → Option Json) (value : String) : Option Json :=
  if value = "" then none else parse value

/-! ## JavaScript plain-object records

JavaScript objects used as string-keyed dictionaries preserve insertion order:
setting an existing key updates it in place, setting a fresh key appends it,
and delete removes the key.  They are modelled as association lists. -/

/-- Lookup of a key in a JavaScript record. -/
def recordGet {α : Type} (m : List (String × α)) (k : String) : Option α :=
  match m with
  | [] => none
  | (k', v) :: rest => if k' = k then some v else recordGet rest k

/-- Assignment of a key in a JavaScript record: update in place or append. -/
def recordSet {α : Type} (m : List (String × α)) (k : String) (v : α) :
    List (String × α) :=
  match m with
  | [] => [(k, v)]
  | (k', v') :: rest =>
      if k' = k then (k, v) :: rest else (k', v') :: recordSet rest k v

/-- Deletion of a key from a JavaScript record. -/
def recordDelete {α : Type} (m : List (String × α)) (k : String) :
    List (String × α) :=
  m.filter (fun p => decide (p.1 ≠ k))

/-! ## web/src/components/ui/textarea.tsx : StageView reducer -/

/-- One finished utterance shown in the stage view (type RoleMessage). -/
structure RoleMessage where
  id : String
  content : String
  ts : Nat
  round : Option Nat
deriving DecidableEq

/-- Per-role display state (type RoleState). -/
structure RoleState where
  role : String
  streamText : String
  streamMessageId : Option String
  lastTokenTs : Option Nat
  lastMessageTs : Option Nat
  messages : List RoleMessage
deriving DecidableEq

/-- Whole stage state (type State): a role map plus the display order. -/
structure StageState where
  roles : List (String × RoleState)
  order : List String
deriving DecidableEq

/-- Reducer actions (type Action). -/
inductive StageAction where
  | reset (roles : List String)
  | token (role : String) (messageId : String) (text : String) (ts : Nat)
  | message (role : String) (messageId : String) (content : String) (ts : Nat)
      (round : Option Nat)
deriving DecidableEq

/-- Constant MAX_MESSAGES from textarea.tsx. -/
def MAX_MESSAGES : Nat := 120

/-- Fresh per-role state as built by reset and ensureRole. -/
def emptyRoleState (role : String) : RoleState :=
  { role := role
    streamText := ""
    streamMessageId := none
    lastTokenTs := none
    lastMessageTs := none
    messages := [] }

/-- Embedding of ensureRole from textarea.tsx. -/
def ensureRole (state : StageState) (role : String) : StageState :=
  match recordGet state.roles role with
  | some _ => state
  | none =>
      { roles := recordSet state.roles role (emptyRoleState role)
        order :=
          if state.order.contains role then state.order
          else state.order ++ [role] }

/-- JavaScript Array.slice(-n): the last n elements (the whole list if it is
shorter than n). -/
def takeLast {α : Type} (n : Nat) (l : List α) : List α :=
  l.drop (l.length - n)

/-- Embedding of stageReducer from textarea.tsx. -/
def stageReducer (state : StageState) (action : StageAction) : StageState :=
  match action with
  | .reset roles =>
      { roles := roles.map (fun r => (r, emptyRoleState r)), order := roles }
  | .token role messageId text ts =>
      let next := ensureRole state role
      match recordGet next.roles role with
      | none => next
      | some roleState =>
          let streamText :=
            if roleState.streamMessageId = some messageId then
              roleState.streamText ++ text
            else text
          let updated : RoleState :=
            { roleState with
                streamText := streamText
                streamMessageId := some messageId
                lastTokenTs := some ts }
          { next with roles := recordSet next.roles role updated }
  | .message role messageId content ts round =>
      let next := ensureRole state role
      match recordGet next.roles role with
      | none => next
      | some roleState =>
          let messages :=
            roleState.messages ++ [⟨messageId, content, ts, round⟩]
          let trimmed := takeLast MAX_MESSAGES messages
          let updated : RoleState :=
            { roleState with
                messages := trimmed
                lastMessageTs := some ts
                streamText :=
                  if roleState.streamMessageId = some messageId then ""
                  else roleState.streamText
                streamMessageId :=
                  if roleState.streamMessageId = some messageId then none
                  else roleState.streamMessageId }
          { next with roles := recordSet next.roles role updated }

/-- Every tracked role keeps at most MAX_MESSAGES finished messages. -/
def boundedMessages (s : StageState) : Prop :=
  ∀ r rs, recordGet s.roles r = some rs → rs.messages.length ≤ MAX_MESSAGES

/-! ## storage/schema.sql : events relation -/

/-- One row of the events table.  The id column is INTEGER PRIMARY KEY
AUTOINCREMENT and is the only ordering position an Event row carries. -/
structure EventRow where
  id : Nat
  run_id : String
  ts_ms : Nat
  type : String
  actor : String
  payload_json : String
deriving DecidableEq

/-- An insert request for the events table (all columns except id, which the
database assigns). -/
structure EventWrite where
  run_id : String
  ts_ms : Nat
  type : String
  actor : String
  payload_json : String
deriving DecidableEq

/-- SQLite AUTOINCREMENT: the assigned id is one more than the largest id
present (the table is append-only, so no larger id was ever deleted). -/
def nextEventId (tbl : List EventRow) : Nat :=
  (tbl.map EventRow.id).foldr max 0 + 1

/-- Appending one event row, with the id assigned by the database. -/
def insertEvent (tbl : List EventRow) (w : EventWrite) : List EventRow :=
  tbl ++ [⟨nextEventId tbl, w.run_id, w.ts_ms, w.type, w.actor, w.payload_json⟩]

/-- The events table after an interleaved sequence of writes, possibly from
several concurrent Runs, starting from an empty table. -/
def applyWrites (ws : List EventWrite) : List EventRow :=
  ws.foldl insertEvent []

/-- The sequence positions (ids) of one Run's events, in table order. -/
def runSeqPositions (tbl : List EventRow) (run : String) : List Nat :=
  (tbl.filter (fun r => decide (r.run_id = run))).map EventRow.id

/-- Strictly increasing list of positions. -/
def strictlyIncreasing (l : List Nat) : Prop :=
  l.Pairwise (· < ·)

/-- Gapless list of positions: each one is the predecessor plus one. -/
def gapless : List Nat → Prop
  | [] => True
  | [_] => True
  | a :: b :: rest => b = a + 1 ∧ gapless (b :: rest)

instance gaplessDecidable : (l : List Nat) → Decidable (gapless l)
  | [] => isTrue trivial
  | [_] => isTrue trivial
  | _ :: b :: rest =>
      have : Decidable (gapless (b :: rest)) := gaplessDecidable (b :: rest)
      inferInstanceAs (Decidable (_ ∧ _))

/-! ## storage/schema.sql : artifacts relation, with the spec-modelled
Artifact Gate acceptance -/

/-- One row of the artifacts table (typed and versioned, keyed by run). -/
structure ArtifactRow where
  id : Nat
  run_id : String
  type : String
  version : String
  content_json : String
  created_ts_ms : Nat
deriving DecidableEq

/-- AUTOINCREMENT id for the artifacts table. -/
def nextArtifactId (tbl : List ArtifactRow) : Nat :=
  (tbl.map ArtifactRow.id).foldr max 0 + 1

/-- Whether a row stores the artifact of the given run, type and version. -/
def artifactMatches (run ty ver : String) (r : ArtifactRow) : Prop :=
  r.run_id = run ∧ r.type = ty ∧ r.version = ver

instance (run ty ver : String) (r : ArtifactRow) :
    Decidable (artifactMatches run ty ver r) :=
  inferInstanceAs (Decidable (r.run_id = run ∧ r.type = ty ∧ r.version = ver))

/-- Modelled from the spec: the Artifact Gate finalize step (meeting/domain is
not under src/).  A candidate Artifact is accepted only if it validates
against its schema, and an Artifact of a given type and version is accepted at
most once per Run: a duplicate submission leaves the table unchanged. -/
def finalizeArtifact (validate : String → Bool) (tbl : List ArtifactRow)
    (run ty ver content : String) (ts : Nat) : List ArtifactRow :=
  if validate content = false then tbl
  else if tbl.any (fun r => decide (artifactMatches run ty ver r)) then tbl
  else tbl ++ [⟨nextArtifactId tbl, run, ty, ver, content, ts⟩]

/-- The stored artifacts of a given run, type and version. -/
def storedArtifacts (tbl : List ArtifactRow) (run ty ver : String) :
    List ArtifactRow :=
  tbl.filter (fun r => decide (artifactMatches run ty ver r))

/-! ## storage/schema.sql : memories relation, with the spec-modelled
latest-wins read -/

/-- One row of the memories table (per run and role, insert-mostly). -/
structure MemoryRow where
  id : Nat
  run_id : String
  role_name : String
  content_json : String
  updated_ts_ms : Nat
deriving DecidableEq

/-- AUTOINCREMENT id for the memories table. -/
def nextMemoryId (tbl : List MemoryRow) : Nat :=
  (tbl.map MemoryRow.id).foldr max 0 + 1

/-- Appending one memory snapshot, with the id assigned by the database. -/
def insertMemory (tbl : List MemoryRow) (run role content : String) (ts : Nat) :
    List MemoryRow :=
  tbl ++ [⟨nextMemoryId tbl, run, role, content, ts⟩]

/-- Modelled from the spec: the latest-wins read of a role's memory for a run
(the repository read path, meeting/storage/repo.py, is not under src/).
Snapshots are appended in update order, so the most recently updated snapshot
for a (run, role) pair is the last matching row. -/
def readMemory (tbl : List MemoryRow) (run role : String) : Option MemoryRow :=
  (tbl.filter (fun r => decide (r.run_id = run ∧ r.role_name = role))).getLast?

/-! ## Meeting State Machine round loop (spec-modelled) -/

/-- Engine phases relevant to the round-cap property. -/
inductive Phase where
  | Discussion : Phase
  | Convergence : Phase
deriving DecidableEq

/-- Modelled from the spec: the per-run state owned by the Meeting State
Machine (the engine, meeting/domain, is not under src/). -/
structure EngineRun where
  round : Nat
  phase : Phase
  maxRounds : Nat
deriving DecidableEq

/-- A freshly started run: no round executed yet, in Discussion. -/
def initRun (maxRounds : Nat) : EngineRun :=
  { round := 0, phase := .Discussion, maxRounds := maxRounds }

/-- Modelled from the spec: advanceRound, the single step function of the
Meeting State Machine (meeting/domain is not under src/).  It executes the
next round and then consults the Convergence Evaluator, whose first stop rule
is the hard ceiling: once the executed round count reaches max_rounds the run
is forced into Convergence regardless of the evaluator opinion; otherwise the
evaluator (converged) may stop it, else the run keeps discussing.  Once in
Convergence no further round is executed. -/
def advanceRound (converged : Nat → Bool) (r : EngineRun) : EngineRun :=
  match r.phase with
  | .Convergence => r
  | .Discussion =>
      let executed := r.round + 1
      if r.maxRounds ≤ executed then
        { r with round := executed, phase := .Convergence }
      else if converged executed then
        { r with round := executed, phase := .Convergence }
      else
        { r with round := executed }

/-! ## Pause/Resume Controller (spec-modelled) -/

/-- Run status values, as stored in the runs relation. -/
inductive RunStatus where
  | RUNNING : RunStatus
  | PAUSED : RunStatus
  | DONE : RunStatus
  | FAILED : RunStatus
deriving DecidableEq

/-- Errors of the resume contract. -/
inductive ResumeError where
  | TokenError : ResumeError
  | ValidationError : ResumeError
deriving DecidableEq

/-- Modelled from the spec: the state a paused Run carries for resumption
(the Pause/Resume Controller, meeting/domain/pause_resume.py, is not under
src/): its status, round, the single outstanding ResumeToken if any, the keys
of the pending questions that are required, and the PublicContext into which
answers are merged. -/
structure PausedRun where
  status : RunStatus
  round : Nat
  outstanding : Option Nat
  requiredKeys : List String
  publicContext : List (String × String)
deriving DecidableEq

/-- Modelled from the spec: resume(run, token, answers).  It fails with
TokenError if the token does not match the run's current outstanding token
(already consumed or superseded), fails with ValidationError if a required
question lacks an answer, and on success merges the answers, invalidates the
token and returns the run to Discussion at the same round.  The returned pair
carries the run state after the call, so an unchanged first component states
that the call did not mutate the run. -/
def resume (r : PausedRun) (token : Nat) (answers : List (String × String)) :
    PausedRun × Option ResumeError :=
  if r.outstanding ≠ some token then
    (r, some .TokenError)
  else if r.requiredKeys.any
      (fun k => decide ((recordGet answers k).isNone = true)) then
    (r, some .ValidationError)
  else
    ({ r with
        status := .RUNNING
        outstanding := none
        requiredKeys := []
        publicContext := r.publicContext ++ answers }, none)

/-! ## start(meeting, overrides) configuration validation (spec-modelled) -/

/-- Configuration error raised when a merged run configuration is invalid. -/
inductive ConfigError where
  | invalid : ConfigError
deriving DecidableEq

/-- Merged run configuration: round cap, role roster, context mode. -/
structure RunConfig where
  maxRounds : Nat
  roles : List String
  contextMode : String
deriving DecidableEq

/-- Overrides applied on top of the Meeting configuration at start. -/
structure RunOverrides where
  maxRounds : Option Nat
  roles : Option (List String)
  contextMode : Option String
deriving DecidableEq

/-- Modelled from the spec: merging overrides into the Meeting configuration
at start (the engine, meeting/domain, is not under src/). -/
def mergeConfig (m : RunConfig) (o : RunOverrides) : RunConfig :=
  { maxRounds := o.maxRounds.getD m.maxRounds
    roles := o.roles.getD m.roles
    contextMode := o.contextMode.getD m.contextMode }

/-- Modelled from the spec: validation of the merged configuration — round
cap at least 1, every roster role known, context mode one of the known modes
(shared, layered). -/
def validConfig (knownRoles : List String) (c : RunConfig) : Prop :=
  1 ≤ c.maxRounds ∧ (∀ role ∈ c.roles, role ∈ knownRoles) ∧
    (c.contextMode = "shared" ∨ c.contextMode = "layered")

instance (knownRoles : List String) (c : RunConfig) :
    Decidable (validConfig knownRoles c) :=
  inferInstanceAs (Decidable (1 ≤ c.maxRounds ∧
    (∀ role ∈ c.roles, role ∈ knownRoles) ∧
    (c.contextMode = "shared" ∨ c.contextMode = "layered")))

/-- The run registry: the started runs, each a runs-relation row id paired
with its configuration. -/
structure RunRegistry where
  nextId : Nat
  runs : List (Nat × RunConfig)
deriving DecidableEq

/-- Modelled from the spec: start(meeting, overrides).  The merged
configuration is validated; on failure the call returns ConfigError and the
registry is returned unchanged — no run is ever started.  On success a run id
is allocated and the run is registered. -/
def start (knownRoles : List String) (reg : RunRegistry) (m : RunConfig)
    (o : RunOverrides) : (Except ConfigError Nat) × RunRegistry :=
  let c := mergeConfig m o
  if validConfig knownRoles c then
    (.ok reg.nextId,
      { nextId := reg.nextId + 1, runs := reg.runs ++ [(reg.nextId, c)] })
  else
    (.error .invalid, reg)

/-! ## web/src/components/panels/EventStreamPanel.tsx : buildEventLines -/

/-- The payload.message object as read by buildEventLines: only a content
field that may or may not be a string. -/
structure MsgObj where
  content : Option String
deriving DecidableEq

/-- The payload.content object as read by buildEventLines: an optional
mermaid string plus the remaining serialized fields. -/
structure ContentObj where
  mermaid : Option String
  raw : String
deriving DecidableEq

/-- The event payload fields that buildEventLines reads.  Absent (undefined)
JSON fields are modelled as none. -/
structure Payload where
  message_id : Option String
  text : Option String
  round : Option Int
  speakers : Option String
  speaker : Option String
  message : Option MsgObj
  artifact_type : Option String
  content : Option ContentObj
  consensus_score : Option Int
  open_questions_count : Option Int
  disagreements_count : Option Int
deriving DecidableEq

/-- A payload with every field absent. -/
def emptyPayload : Payload :=
  ⟨none, none, none, none, none, none, none, none, none, none, none⟩

/-- Embedding of type EventRecord from web/src/lib/types.ts. -/
structure EventRecord where
  run_id : String
  ts_ms : Nat
  type : String
  actor : String
  payload : Payload
deriving DecidableEq

/-- Kind of a display line. -/
inductive LineKind where
  | markdown : LineKind
  | json : LineKind
  | mermaid : LineKind
deriving DecidableEq

/-- Embedding of type EventLine from EventStreamPanel.tsx. -/
structure EventLine where
  id : String
  label : String
  kind : LineKind
  content : String
deriving DecidableEq

/-- String(payload.message_id ?? "unknown"). -/
def messageIdOf (p : Payload) : String :=
  p.message_id.getD "unknown"

/-- The token-buffer key, messageId:actor.  In types.ts actor is a non-null
string, so event.actor ?? "agent" is just the actor. -/
def tokenKeyOf (e : EventRecord) : String :=
  messageIdOf e.payload ++ ":" ++ e.actor

/-- The agent message text: message.content when message is an object whose
content is a string, otherwise the empty string. -/
def msgContentOf (p : Payload) : String :=
  match p.message with
  | some m => m.content.getD ""
  | none => ""

/-- Template interpolation of an optional number, rendering absence as the
empty string. -/
def optIntText (o : Option Int) : String :=
  match o with
  | some n => toString n
  | none => ""

/-- Model of fmt = JSON.stringify(obj, null, 2) on a payload.content object.
The exact JSON rendering is a JavaScript builtin; the model concatenates the
fields, which is all the proved properties depend on. -/
def fmtContent (c : ContentObj) : String :=
  (match c.mermaid with
    | some m => "mermaid:" ++ m ++ ";"
    | none => "") ++ c.raw

/-- Model of fmt = JSON.stringify(event, null, 2) on a whole event. -/
def fmtEvent (e : EventRecord) : String :=
  e.run_id ++ ";" ++ toString e.ts_ms ++ ";" ++ e.type ++ ";" ++ e.actor

/-- The detail fragment of a line label, from the chain of type tests in
buildEventLines. -/
def detailOf (e : EventRecord) : String :=
  if e.type = "round_started" then " round=" ++ optIntText e.payload.round
  else if e.type = "speaker_selected" then
    " speakers=" ++ (e.payload.speakers.getD (e.payload.speaker.getD ""))
  else if e.type = "agent_message" then
    " message=\"" ++ (msgContentOf e.payload).take 42 ++ "\""
  else if e.type = "artifact_written" then
    " artifact=" ++ e.payload.artifact_type.getD ""
  else if e.type = "summary_written" then " summary"
  else if e.type = "metric" then
    " open_q=" ++ optIntText e.payload.open_questions_count ++
      " disagree=" ++ optIntText e.payload.disagreements_count ++
      (match e.payload.consensus_score with
        | some n => " consensus=" ++ toString n
        | none => "")
  else ""

/-- The kind and content of an ordinary (non-stream) line. -/
def kindContentOf (e : EventRecord) : LineKind × String :=
  if e.type = "agent_message" then (.markdown, msgContentOf e.payload)
  else if e.type = "summary_written" then
    (.markdown,
      match e.payload.content with
      | some c => fmtContent c
      | none => "")
  else if e.type = "artifact_written" then
    match e.payload.content with
    | some c =>
        match c.mermaid with
        | some m => (.mermaid, m)
        | none => (.json, fmtContent c)
    | none => (.json, fmtContent ⟨none, ""⟩)
  else (.json, fmtEvent e)

/-- The ordinary line pushed for the event at list index i. -/
def mainLine (i : Nat) (e : EventRecord) : EventLine :=
  { id := toString i ++ "-" ++ e.type
    label := ("[" ++ e.type ++ "]" ++ detailOf e).trim
    kind := (kindContentOf e).1
    content := (kindContentOf e).2 }

/-- The token_stream line flushed just before an agent_message line. -/
def streamLine (i : Nat) (e : EventRecord) (text : String) : EventLine :=
  { id := toString i ++ "-stream-" ++ messageIdOf e.payload
    label := "token_stream · " ++ e.actor
    kind := .markdown
    content := text }

/-- The leftover line built from a still-buffered key at the end of the
event walk (key.split(":")[1] ?? "agent"). -/
def tailLine (kv : String × String) : EventLine :=
  { id := "stream-tail-" ++ kv.1
    label := "token_stream · " ++ (((kv.1.splitOn ":").get? 1).getD "agent")
    kind := .markdown
    content := kv.2 }

/-- The tokenBuffers update performed for a token event:
tokenBuffers[key] = (tokenBuffers[key] ?? "") + String(payload.text ?? ""). -/
def bufferToken (buffers : List (String × String)) (e : EventRecord) :
    List (String × String) :=
  recordSet buffers (tokenKeyOf e)
    ((recordGet buffers (tokenKeyOf e)).getD "" ++ e.payload.text.getD "")

/-- The flush performed before an agent_message line when showTokens is on:
if the buffered text for the key is truthy (present and non-empty), emit one
token_stream line and delete the buffer entry. -/
def flushStep (showTokens : Bool) (i : Nat) (e : EventRecord)
    (buffers : List (String × String)) :
    List EventLine × List (String × String) :=
  if e.type = "agent_message" ∧ showTokens = true then
    match recordGet buffers (tokenKeyOf e) with
    | some s =>
        if s = "" then (([] : List EventLine), buffers)
        else ([streamLine i e s], recordDelete buffers (tokenKeyOf e))
    | none => ([], buffers)
  else ([], buffers)

/-- Embedding of the forEach walk of buildEventLines: the remaining events,
the current index, and the tokenBuffers record; it returns the emitted lines
and the final buffers. -/
def buildLinesAux (showTokens : Bool) :
    List EventRecord → Nat → List (String × String) →
      List EventLine × List (String × String)
  | [], _, buffers => ([], buffers)
  | e :: rest, i, buffers =>
      if e.type = "token" then
        if showTokens then
          buildLinesAux showTokens rest (i + 1) (bufferToken buffers e)
        else buildLinesAux showTokens rest (i + 1) buffers
      else
        let flushed := flushStep showTokens i e buffers
        let next := buildLinesAux showTokens rest (i + 1) flushed.2
        (flushed.1 ++ mainLine i e :: next.1, next.2)

/-- Embedding of buildEventLines from EventStreamPanel.tsx. -/
def buildEventLines (events : List EventRecord) (showTokens : Bool) :
    List EventLine :=
  let walk := buildLinesAux showTokens events 0 []
  walk.1 ++ (if showTokens then walk.2.map tailLine else [])

/-- Number of agent_message events with the given token key. -/
def msgMatchCount (key : String) : List EventRecord → Nat
  | [] => 0
  | e :: rest =>
      (if e.type = "agent_message" ∧ tokenKeyOf e = key then 1 else 0) +
        msgMatchCount key rest

/-- The adapter contract of the claim: every token event is followed later in
the list by exactly one agent_message event with the same (message_id, actor)
key. -/
def adapterContract : List EventRecord → Bool
  | [] => true
  | e :: rest =>
      (decide (e.type = "token" → msgMatchCount (tokenKeyOf e) rest = 1)) &&
        adapterContract rest

/-- Every token event carries a non-empty text. -/
def tokensNonempty : List EventRecord → Bool
  | [] => true
  | e :: rest =>
      (decide (e.type = "token" → e.payload.text.getD "" ≠ "")) &&
        tokensNonempty rest

/-- Concatenation, in list order, of the texts of all token events with the
given key. -/
def allTokenText (key : String) : List EventRecord → String
  | [] => ""
  | e :: rest =>
      (if e.type = "token" ∧ tokenKeyOf e = key then e.payload.text.getD ""
        else "") ++ allTokenText key rest

/-- Reference rendering written from the claim: token events emit no line;
an agent_message is preceded by exactly one token_stream line holding the
concatenation of its earlier matching token texts whenever that concatenation
is non-empty; every other event emits its ordinary line; nothing is appended
after the walk. -/
def eventLinesSpecAux : List EventRecord → List EventRecord → Nat →
    List EventLine
  | _, [], _ => []
  | past, e :: rest, i =>
      if e.type = "token" then eventLinesSpecAux (past ++ [e]) rest (i + 1)
      else if e.type = "agent_message" then
        (if allTokenText (tokenKeyOf e) past = "" then [mainLine i e]
          else [streamLine i e (allTokenText (tokenKeyOf e) past), mainLine i e])
          ++ eventLinesSpecAux (past ++ [e]) rest (i + 1)
      else mainLine i e :: eventLinesSpecAux (past ++ [e]) rest (i + 1)

/-- Reference rendering of a whole event list, per the claim. -/
def eventLinesSpec (events : List EventRecord) : List EventLine :=
  eventLinesSpecAux [] events 0

/-- One step of the pending-text fold: append a matching token text, reset
on a matching agent_message, otherwise keep the accumulator. -/
def pendStep (key : String) (acc : String) (e : EventRecord) : String :=
  if e.type = "token" ∧ tokenKeyOf e = key then acc ++ e.payload.text.getD ""
  else if e.type = "agent_message" ∧ tokenKeyOf e = key then ""
  else acc

/-- The pending (not yet flushed) token text for a key: a left fold that
appends matching token texts and resets on a matching agent_message. -/
def pendAux (key : String) : List EventRecord → String → String
  | [], acc => acc
  | e :: rest, acc => pendAux key rest (pendStep key acc e)

/-- Pending token text accumulated over a processed prefix. -/
def pend (past : List EventRecord) (key : String) : String :=
  pendAux key past ""

/-- Invariant tying the tokenBuffers record to the processed prefix: a key is
buffered exactly when its pending text is non-empty, and then the buffer
holds that pending text. -/
def buffersInv (past : List EventRecord) (B : List (String × String)) : Prop :=
  ∀ k, recordGet B k =
    (if pend past k = "" then none else some (pend past k))

/-! ## Decidability instances and concrete inputs used by witnesses and
counterexamples -/

/-- Three interleaved writes from two concurrent Runs. -/
def c1Writes : List EventWrite :=
  [⟨"runA", 10, "round_started", "system", "1"⟩,
   ⟨"runB", 11, "round_started", "system", "1"⟩,
   ⟨"runA", 12, "round_started", "system", "2"⟩]

/-- A token event payload. -/
def mkTokenPayload (mid text : String) : Payload :=
  { emptyPayload with message_id := some mid, text := some text }

/-- An agent_message event payload. -/
def mkMessagePayload (mid content : String) : Payload :=
  { emptyPayload with message_id := some mid, message := some ⟨some content⟩ }

/-- A token event of the web event stream. -/
def tokenEvent (mid actor text : String) : EventRecord :=
  ⟨"run1", 1, "token", actor, mkTokenPayload mid text⟩

/-- An agent_message event of the web event stream. -/
def messageEvent (mid actor content : String) : EventRecord :=
  ⟨"run1", 2, "agent_message", actor, mkMessagePayload mid content⟩

/-- A well-formed stream: two tokens, then their agent message. -/
def c4good : List EventRecord :=
  [tokenEvent "m1" "Recorder" "he", tokenEvent "m1" "Recorder" "llo",
   messageEvent "m1" "Recorder" "hello"]

/-- A stream satisfying the adapter contract whose single token carries an
empty text. -/
def c4bad : List EventRecord :=
  [tokenEvent "m1" "Recorder" "", messageEvent "m1" "Recorder" "done"]

/-- A paused run holding outstanding token 7 and one required question. -/
def c5run : PausedRun :=
  ⟨.PAUSED, 2, some 7, ["qps_peak"], []⟩

/-- A meeting configuration with a valid base setup. -/
def c6meeting : RunConfig :=
  ⟨3, ["Recorder"], "shared"⟩

/-- Overrides that drive the merged round cap below 1. -/
def c6overrides : RunOverrides :=
  ⟨some 0, none, none⟩

/-- A registry with no runs started yet. -/
def c6registry : RunRegistry :=
  ⟨1, []⟩

/-! # Theorems -/

/-! ## Shared record lemmas -/

theorem recordGet_set {α : Type} (m : List (String × α)) (k q : String) (v : α) :
    recordGet (recordSet m k v) q = if q = k then some v else recordGet m q := by
  induction m with
  | nil =>
      by_cases h : q = k
      · simp [recordSet, recordGet, h]
      · have h' : ¬ k = q := fun hh => h hh.symm
        simp [recordSet, recordGet, h, h']
  | cons p rest ih =>
      by_cases hk : p.1 = k
      · by_cases hq : q = k
        · simp [recordSet, recordGet, hk, hq]
        · have h' : ¬ k = q := fun hh => hq hh.symm
          have hpq : ¬ p.1 = q := by rw [hk]; exact h'
          simp [recordSet, recordGet, hk, hq, h', hpq]
      · by_cases hpq : p.1 = q
        · have hq : ¬ q = k := fun h => hk (hpq.trans h)
          simp [recordSet, recordGet, hk, hpq, hq]
        · simp [recordSet, recordGet, hk, hpq, ih]

theorem recordGet_delete {α : Type} (m : List (String × α)) (k q : String) :
    recordGet (recordDelete m k) q = if q = k then none else recordGet m q := by
  induction m with
  | nil => simp [recordDelete, recordGet]
  | cons p rest ih =>
      simp only [recordDelete] at ih ⊢
      rw [List.filter_cons]
      by_cases hk : p.1 = k
      · have hcond : decide (p.1 ≠ k) = false := by simp [hk]
        rw [hcond]
        simp only [Bool.false_eq_true, if_false]
        rw [ih]
        by_cases hq : q = k
        · simp [hq]
        · have hpq : ¬ p.1 = q := by
            rw [hk]; exact fun hh => hq hh.symm
          simp [recordGet, hq, hpq]
      · have hcond : decide (p.1 ≠ k) = true := by simp [hk]
        rw [hcond]
        simp only [if_true]
        by_cases hpq : p.1 = q
        · have hq : ¬ q = k := fun h => hk (hpq.trans h)
          simp [recordGet, hpq, hq]
        · simp [recordGet, hpq]
          simpa [decide_not] using ih

theorem recordGet_none_nil {α : Type} (B : List (String × α))
    (h : ∀ k, recordGet B k = none) : B = [] := by
  cases B with
  | nil => rfl
  | cons p rest =>
      have hp := h p.1
      simp [recordGet] at hp

/-! ## C8 : tryParseJson -/

/-- C8: tryParseJson is total (never throws): it yields none on the empty
string, none whenever JSON.parse fails, and the parsed value on any non-empty
input on which JSON.parse succeeds. -/
theorem tryParseJson_total (parse : String → Option Json) (s : String) :
    (s = "" → tryParseJson parse s = none) ∧
    (parse s = none → tryParseJson parse s = none) ∧
    (s ≠ "" → tryParseJson parse s = parse s) := by
  refine ⟨fun h => by simp [tryParseJson, h], fun h => ?_,
    fun h => by simp [tryParseJson, h]⟩
  by_cases hs : s = "" <;> simp [tryParseJson, hs, h]

/-- Witness for C8 at a concrete parse function and concrete inputs. -/
theorem tryParseJson_total_witness :
    tryParseJson (fun t => some (Json.str t)) "" = none ∧
      tryParseJson (fun t => some (Json.str t)) "x" = some (Json.str "x") :=
  ⟨(tryParseJson_total (fun t => some (Json.str t)) "").1 rfl,
    ((tryParseJson_total (fun t => some (Json.str t)) "x").2.2
      (by decide)).trans rfl⟩

/-! ## C10 : clampText -/

/-- C10: clampText returns the string unchanged when it fits in the bound
(and the empty string on empty input), truncates to the first max characters
followed by a single ellipsis character otherwise, and its result never
exceeds max + 1 characters. -/
theorem clampText_spec (s : String) (max : Nat) (hmax : 0 < max) :
    (s.length ≤ max → clampText s max = s) ∧
    (s = "" → clampText s max = "") ∧
    (max < s.length → clampText s max = s.take max ++ "…") ∧
    (clampText s max).length ≤ max + 1 := by
  clear hmax
  by_cases h0 : s = ""
  · subst h0
    refine ⟨fun _ => rfl, fun _ => rfl, fun h => ?_, ?_⟩
    · simp [String.length] at h
    · simp [clampText]
  · by_cases hlt : max < s.length
    · refine ⟨fun h => absurd h (by omega), fun h => absurd h h0,
        fun _ => by simp [clampText, h0, hlt], ?_⟩
      have htake : (s.take max).length ≤ max := by
        rw [String.take_eq]
        show (s.1.take max).length ≤ max
        rw [List.length_take]
        exact Nat.min_le_left _ _
      simp only [clampText, if_neg h0, if_pos hlt]
      rw [String.length_append]
      have hdot : "…".length = 1 := rfl
      omega
    · refine ⟨fun _ => by simp [clampText, h0, hlt], fun h => absurd h h0,
        fun h => absurd h hlt, ?_⟩
      simp only [clampText, if_neg h0, if_neg hlt]
      omega

/-- Witness for C10 at a concrete string and bound. -/
theorem clampText_spec_witness :
    (0 < 4 ∧ clampText "hello" 4 = "hell…") ∧
      (clampText "hello" 4).length ≤ 5 :=
  ⟨⟨by decide,
      ((clampText_spec "hello" 4 (by decide)).2.2.1 (by decide)).trans rfl⟩,
    (clampText_spec "hello" 4 (by decide)).2.2.2⟩

/-! ## C1 : event sequence positions -/

theorem foldr_max_acc (l : List Nat) (a : Nat) :
    l.foldr max a = max (l.foldr max 0) a := by
  induction l with
  | nil => simp
  | cons x xs ih => simp [List.foldr, ih, Nat.max_assoc]

theorem range'_foldr_max (n : Nat) : (List.range' 1 n).foldr max 0 = n := by
  induction n with
  | zero => rfl
  | succ n ih =>
      rw [List.range'_concat, List.foldr_append,
        foldr_max_acc (List.range' 1 n), ih]
      simp only [List.foldr_cons, List.foldr_nil, Nat.max_zero]
      rw [Nat.max_eq_right (by omega)]
      omega

theorem applyWrites_ids_aux (ws : List EventWrite) :
    ∀ tbl : List EventRow, tbl.map EventRow.id = List.range' 1 tbl.length →
      (ws.foldl insertEvent tbl).map EventRow.id =
        List.range' 1 (tbl.length + ws.length) := by
  induction ws with
  | nil => intro tbl h; simpa using h
  | cons w ws ih =>
      intro tbl h
      have hnext : nextEventId tbl = tbl.length + 1 := by
        unfold nextEventId
        rw [h, range'_foldr_max]
      have h2 : (insertEvent tbl w).map EventRow.id =
          List.range' 1 (tbl.length + 1) := by
        unfold insertEvent
        rw [List.map_append, h, List.range'_concat]
        simp [hnext]
        omega
      have hlen : (insertEvent tbl w).length = tbl.length + 1 := by
        unfold insertEvent
        simp
      have := ih (insertEvent tbl w) (by rw [h2, hlen])
      rw [hlen] at this
      rw [List.foldl_cons, this]
      congr 1
      simp only [List.length_cons]
      omega

theorem applyWrites_ids (ws : List EventWrite) :
    (applyWrites ws).map EventRow.id = List.range' 1 ws.length := by
  have h := applyWrites_ids_aux ws [] (by simp)
  simpa [applyWrites] using h

theorem gapless_range' (n : Nat) : ∀ s : Nat, gapless (List.range' s n) := by
  induction n with
  | zero => intro s; simp [List.range'] ; trivial
  | succ n ih =>
      intro s
      rw [List.range'_succ]
      cases n with
      | zero => simp [List.range', gapless]
      | succ m =>
          rw [List.range'_succ]
          refine And.intro rfl ?_
          have h := ih (s + 1)
          rw [List.range'_succ] at h
          exact h

/-- C1 (amended): per Run, the sequence positions of that Run's Events are
strictly increasing in insertion order, and the event log as a whole is
gapless; a single Run's positions need not be gapless once several Runs
write concurrently (see the counterexample). -/
theorem run_events_strictly_increasing (ws : List EventWrite) (run : String) :
    strictlyIncreasing (runSeqPositions (applyWrites ws) run) ∧
      gapless ((applyWrites ws).map EventRow.id) := by
  constructor
  · unfold strictlyIncreasing runSeqPositions
    have hsub : List.Sublist
        (((applyWrites ws).filter (fun r => decide (r.run_id = run))).map
          EventRow.id)
        ((applyWrites ws).map EventRow.id) :=
      (List.filter_sublist _).map _
    have hp : ((applyWrites ws).map EventRow.id).Pairwise (· < ·) := by
      rw [applyWrites_ids]
      exact List.pairwise_lt_range' 1 ws.length
    exact hp.sublist hsub
  · rw [applyWrites_ids]
    exact gapless_range' ws.length 1

/-- C1 counterexample: with two Runs writing concurrently, runA obtains the
interleaved sequence positions 1 and 3 — strictly increasing but not
gapless, contradicting the claim that per-Run positions stay gapless under
concurrent Runs. -/
theorem run_events_gapless_counterexample :
    runSeqPositions (applyWrites c1Writes) "runA" = [1, 3] ∧
      ¬ gapless (runSeqPositions (applyWrites c1Writes) "runA") := by
  constructor
  · decide
  · decide

/-! ## C2 : round cap forces Convergence -/

theorem advanceRound_iterate (converged : Nat → Bool)
    (hconv : ∀ n, converged n = false) (m : Nat) (hm : 1 ≤ m) (k : Nat) :
    (advanceRound converged)^[k] (initRun m) =
      if k < m then ⟨k, .Discussion, m⟩ else ⟨m, .Convergence, m⟩ := by
  induction k with
  | zero =>
      rw [Function.iterate_zero_apply, if_pos (by omega : 0 < m)]
      rfl
  | succ k ih =>
      rw [Function.iterate_succ_apply', ih]
      by_cases hk : k < m
      · rw [if_pos hk]
        by_cases hk1 : k + 1 < m
        · rw [if_pos hk1]
          simp [advanceRound, hconv (k + 1), (by omega : ¬ m ≤ k + 1)]
          exact hk1
        · rw [if_neg hk1]
          have hm1 : m = k + 1 := by omega
          subst hm1
          simp [advanceRound]
      · rw [if_neg hk, if_neg (by omega : ¬ k + 1 < m)]
        simp [advanceRound]

/-- C2: under a Convergence Evaluator that never reports convergence, with a
round cap of m at least 1, the executed round count never exceeds m, the run
is in Convergence exactly after m steps, and whenever it is in Convergence it
got there at exactly round m (with m = 3: Convergence at round 3, never a
round 4). -/
theorem advanceRound_round_cap (converged : Nat → Bool)
    (hconv : ∀ n, converged n = false) (m : Nat) (hm : 1 ≤ m) (k : Nat) :
    ((advanceRound converged)^[k] (initRun m)).round ≤ m ∧
      (((advanceRound converged)^[k] (initRun m)).phase = Phase.Convergence ↔
        m ≤ k) ∧
      (((advanceRound converged)^[k] (initRun m)).phase = Phase.Convergence →
        ((advanceRound converged)^[k] (initRun m)).round = m) := by
  rw [advanceRound_iterate converged hconv m hm k]
  by_cases hk : k < m
  · rw [if_pos hk]
    refine ⟨?_, ?_, ?_⟩
    · show k ≤ m
      omega
    · show Phase.Discussion = Phase.Convergence ↔ m ≤ k
      constructor
      · intro h
        exact Phase.noConfusion h
      · intro h
        exact absurd h (by omega)
    · intro h
      exact Phase.noConfusion h
  · rw [if_neg hk]
    refine ⟨Nat.le_refl m, ?_, fun _ => rfl⟩
    show Phase.Convergence = Phase.Convergence ↔ m ≤ k
    simp
    omega

/-- Witness for C2 at max_rounds = 3: Convergence holds after step 3, not
after step 2, and the round count after step 4 still does not exceed 3. -/
theorem advanceRound_round_cap_witness :
    ((advanceRound (fun _ => false))^[3] (initRun 3)).phase =
        Phase.Convergence ∧
      ¬ ((advanceRound (fun _ => false))^[2] (initRun 3)).phase =
        Phase.Convergence ∧
      ((advanceRound (fun _ => false))^[4] (initRun 3)).round ≤ 3 :=
  ⟨(advanceRound_round_cap (fun _ => false) (fun _ => rfl) 3 (by decide)
      3).2.1.mpr (by decide),
    fun h =>
      absurd ((advanceRound_round_cap (fun _ => false) (fun _ => rfl) 3
        (by decide) 2).2.1.mp h) (by decide),
    (advanceRound_round_cap (fun _ => false) (fun _ => rfl) 3 (by decide) 4).1⟩

/-! ## C3 : idempotent artifact finalize -/

/-- C3: submitting the same valid Artifact twice for the same run, type and
version stores exactly one Artifact row, and the second submission leaves the
table unchanged. -/
theorem finalizeArtifact_idempotent (validate : String → Bool)
    (tbl : List ArtifactRow) (run ty ver content : String) (ts1 ts2 : Nat)
    (hval : validate content = true)
    (hnone : storedArtifacts tbl run ty ver = []) :
    storedArtifacts
        (finalizeArtifact validate
          (finalizeArtifact validate tbl run ty ver content ts1)
          run ty ver content ts2) run ty ver =
      [⟨nextArtifactId tbl, run, ty, ver, content, ts1⟩] ∧
      finalizeArtifact validate
          (finalizeArtifact validate tbl run ty ver content ts1)
          run ty ver content ts2 =
        finalizeArtifact validate tbl run ty ver content ts1 := by
  have hany : tbl.any (fun r => decide (artifactMatches run ty ver r)) =
      false := by
    rw [List.any_eq_false]
    intro r hr
    have := (List.filter_eq_nil_iff.mp hnone) r hr
    simpa using this
  have h1 : finalizeArtifact validate tbl run ty ver content ts1 =
      tbl ++ [⟨nextArtifactId tbl, run, ty, ver, content, ts1⟩] := by
    simp [finalizeArtifact, hval, hany]
  have hnew : artifactMatches run ty ver
      ⟨nextArtifactId tbl, run, ty, ver, content, ts1⟩ := by
    unfold artifactMatches
    exact ⟨rfl, rfl, rfl⟩
  have hany2 :
      (tbl ++ [(⟨nextArtifactId tbl, run, ty, ver, content, ts1⟩ :
          ArtifactRow)]).any
        (fun r => decide (artifactMatches run ty ver r)) = true := by
    rw [List.any_eq_true]
    exact ⟨_, List.mem_append_right _ (List.mem_singleton_self _),
      decide_eq_true hnew⟩
  have h2 : finalizeArtifact validate
      (tbl ++ [(⟨nextArtifactId tbl, run, ty, ver, content, ts1⟩ :
        ArtifactRow)])
      run ty ver content ts2 =
      tbl ++ [(⟨nextArtifactId tbl, run, ty, ver, content, ts1⟩ :
        ArtifactRow)] := by
    unfold finalizeArtifact
    rw [if_neg (by simp [hval] : ¬ validate content = false)]
    rw [if_pos hany2]
  refine ⟨?_, by rw [h1, h2]⟩
  rw [h1, h2]
  unfold storedArtifacts
  rw [List.filter_append]
  unfold storedArtifacts at hnone
  rw [hnone]
  simp [hnew]

/-- Witness for C3 at a concrete empty table and concrete artifact. -/
theorem finalizeArtifact_idempotent_witness :
    storedArtifacts
        (finalizeArtifact (fun _ => true)
          (finalizeArtifact (fun _ => true) [] "r1" "decision_record" "v1"
            "c" 5)
          "r1" "decision_record" "v1" "c" 6) "r1" "decision_record" "v1" =
      [⟨1, "r1", "decision_record", "v1", "c", 5⟩] :=
  (finalizeArtifact_idempotent (fun _ => true) [] "r1" "decision_record" "v1"
    "c" 5 6 rfl rfl).1

/-! ## C5 : stale resume tokens -/

/-- C5: resuming with a token that is not the current outstanding one fails
with TokenError, leaves the run state completely unchanged, and the run
remains Paused. -/
theorem resume_stale_token (r : PausedRun) (token : Nat)
    (answers : List (String × String)) (hp : r.status = RunStatus.PAUSED)
    (hstale : r.outstanding ≠ some token) :
    resume r token answers = (r, some ResumeError.TokenError) ∧
      (resume r token answers).1.status = RunStatus.PAUSED := by
  have h1 : resume r token answers = (r, some ResumeError.TokenError) := by
    unfold resume
    rw [if_pos hstale]
  exact ⟨h1, by rw [h1]; exact hp⟩

/-- Witness for C5 at a concrete paused run and a superseded token. -/
theorem resume_stale_token_witness :
    resume c5run 5 [("qps_peak", "1200")] =
      (c5run, some ResumeError.TokenError) :=
  (resume_stale_token c5run 5 [("qps_peak", "1200")] rfl (by decide)).1

/-! ## C6 : start validates the merged configuration -/

/-- C6: when the merged configuration is invalid, start fails with
ConfigError and returns the registry unchanged — no run is started. -/
theorem start_invalid_config (knownRoles : List String) (reg : RunRegistry)
    (m : RunConfig) (o : RunOverrides)
    (hinvalid : ¬ validConfig knownRoles (mergeConfig m o)) :
    start knownRoles reg m o = (.error .invalid, reg) := by
  simp only [start]
  rw [if_neg hinvalid]

/-- Witness for C6 at a concrete override that sets the round cap to 0. -/
theorem start_invalid_config_witness :
    start ["Recorder"] c6registry c6meeting c6overrides =
      (.error .invalid, c6registry) :=
  start_invalid_config ["Recorder"] c6registry c6meeting c6overrides
    (by decide)

/-! ## C7 : memories are latest-wins per (run, role) -/

/-- C7: after a new snapshot is written for a (run, role) pair, reading that
pair yields exactly the new snapshot (never an older one), and reads of any
other (run, role) pair are unaffected. -/
theorem readMemory_latest_wins (tbl : List MemoryRow)
    (run role content : String) (ts : Nat) :
    readMemory (insertMemory tbl run role content ts) run role =
      some ⟨nextMemoryId tbl, run, role, content, ts⟩ ∧
      ∀ run' role', ¬ (run' = run ∧ role' = role) →
        readMemory (insertMemory tbl run role content ts) run' role' =
          readMemory tbl run' role' := by
  constructor
  · unfold readMemory insertMemory
    rw [List.filter_append]
    have hone : List.filter
        (fun r => decide (r.run_id = run ∧ r.role_name = role))
        [(⟨nextMemoryId tbl, run, role, content, ts⟩ : MemoryRow)] =
        [(⟨nextMemoryId tbl, run, role, content, ts⟩ : MemoryRow)] := by
      simp
    rw [hone]
    exact List.getLast?_concat _
  · intro run' role' hne
    unfold readMemory insertMemory
    rw [List.filter_append]
    have hzero : List.filter
        (fun r => decide (r.run_id = run' ∧ r.role_name = role'))
        [(⟨nextMemoryId tbl, run, role, content, ts⟩ : MemoryRow)] = [] := by
      simp
      intro h1 h2
      exact absurd ⟨h1.symm, h2.symm⟩ hne
    rw [hzero, List.append_nil]

/-- Witness for C7 at two concrete snapshots of the same role. -/
theorem readMemory_latest_wins_witness :
    readMemory
        (insertMemory (insertMemory [] "r1" "Skeptic" "m0" 1)
          "r1" "Skeptic" "m1" 2) "r1" "Skeptic" =
      some ⟨2, "r1", "Skeptic", "m1", 2⟩ ∧
      readMemory (insertMemory [] "r1" "Skeptic" "m0" 1) "r1" "Recorder" =
        none :=
  ⟨(readMemory_latest_wins (insertMemory [] "r1" "Skeptic" "m0" 1)
      "r1" "Skeptic" "m1" 2).1,
    ((readMemory_latest_wins [] "r1" "Skeptic" "m0" 1).2 "r1" "Recorder"
      (by decide)).trans rfl⟩

/-! ## C9 : stage reducer message bound -/

theorem takeLast_length_le {α : Type} (n : Nat) (l : List α) :
    (takeLast n l).length ≤ n := by
  unfold takeLast
  rw [List.length_drop]
  omega

theorem recordGet_map_empty (roles : List String) (q : String)
    (rs : RoleState)
    (h : recordGet (roles.map (fun r => (r, emptyRoleState r))) q = some rs) :
    rs.messages = [] := by
  induction roles with
  | nil => simp [recordGet] at h
  | cons r roles ih =>
      simp only [List.map_cons, recordGet] at h
      by_cases hr : r = q
      · rw [if_pos hr] at h
        cases h
        rfl
      · rw [if_neg hr] at h
        exact ih h

theorem boundedMessages_ensureRole (s : StageState) (role : String)
    (h : boundedMessages s) : boundedMessages (ensureRole s role) := by
  unfold ensureRole
  cases hg : recordGet s.roles role with
  | some rs => exact h
  | none =>
      intro r rs hr
      simp only at hr
      rw [recordGet_set] at hr
      by_cases hrr : r = role
      · rw [if_pos hrr] at hr
        cases hr
        simp [emptyRoleState]
      · rw [if_neg hrr] at hr
        exact h r rs hr

theorem boundedMessages_reducer (s : StageState) (a : StageAction)
    (h : boundedMessages s) : boundedMessages (stageReducer s a) := by
  cases a with
  | reset roles =>
      intro r rs hr
      simp only [stageReducer] at hr
      have := recordGet_map_empty roles r rs hr
      simp [this]
  | token role mid text ts =>
      have h' := boundedMessages_ensureRole s role h
      cases hg : recordGet (ensureRole s role).roles role with
      | none =>
          intro r rs hr
          simp only [stageReducer, hg] at hr
          exact h' r rs hr
      | some roleState =>
          intro r rs hr
          simp only [stageReducer, hg] at hr
          rw [recordGet_set] at hr
          by_cases hrr : r = role
          · rw [if_pos hrr] at hr
            cases hr
            simpa using h' role roleState hg
          · rw [if_neg hrr] at hr
            exact h' r rs hr
  | message role mid content ts round =>
      have h' := boundedMessages_ensureRole s role h
      cases hg : recordGet (ensureRole s role).roles role with
      | none =>
          intro r rs hr
          simp only [stageReducer, hg] at hr
          exact h' r rs hr
      | some roleState =>
          intro r rs hr
          simp only [stageReducer, hg] at hr
          rw [recordGet_set] at hr
          by_cases hrr : r = role
          · rw [if_pos hrr] at hr
            cases hr
            exact takeLast_length_le _ _
          · rw [if_neg hrr] at hr
            exact h' r rs hr

theorem boundedMessages_foldl (acts : List StageAction) :
    ∀ s, boundedMessages s → boundedMessages (acts.foldl stageReducer s) := by
  induction acts with
  | nil => intro s h; exact h
  | cons a acts ih =>
      intro s h
      exact ih _ (boundedMessages_reducer s a h)

/-- C9: starting from any reset, after any sequence of stageReducer actions
every role's messages list has length at most MAX_MESSAGES (120). -/
theorem stageReducer_bounded (s0 : StageState) (roles : List String)
    (acts : List StageAction) :
    boundedMessages
      (acts.foldl stageReducer (stageReducer s0 (StageAction.reset roles))) := by
  have h0 : boundedMessages (stageReducer s0 (.reset roles)) := by
    intro r rs hr
    simp only [stageReducer] at hr
    have := recordGet_map_empty roles r rs hr
    simp [this]
  exact boundedMessages_foldl acts _ h0

/-! ## C4 : token stream assembly in buildEventLines -/

theorem string_ne_empty_iff (s : String) : s ≠ "" ↔ 0 < s.length := by
  cases s with
  | mk data =>
      cases data with
      | nil =>
          constructor
          · intro h
            exact absurd rfl h
          · intro h
            simp [String.length] at h
      | cons c cs =>
          constructor
          · intro _
            simp [String.length]
          · intro _ he
            have : (String.mk (c :: cs)).data = ("" : String).data := by
              rw [he]
            simp at this

theorem append_ne_empty_right (s t : String) (h : t ≠ "") : s ++ t ≠ "" := by
  rw [string_ne_empty_iff] at h ⊢
  rw [String.length_append]
  omega

theorem pendAux_snoc (key : String) (e : EventRecord) :
    ∀ (l : List EventRecord) (acc : String),
      pendAux key (l ++ [e]) acc = pendStep key (pendAux key l acc) e := by
  intro l
  induction l with
  | nil => intro acc; rfl
  | cons f l ih =>
      intro acc
      simp only [List.cons_append, pendAux]
      exact ih _

theorem pend_snoc (past : List EventRecord) (e : EventRecord) (k : String) :
    pend (past ++ [e]) k = pendStep k (pend past k) e :=
  pendAux_snoc k e past ""

theorem pendAux_no_msg (key : String) :
    ∀ l : List EventRecord, msgMatchCount key l = 0 →
      ∀ acc, pendAux key l acc = acc ++ pendAux key l "" := by
  intro l
  induction l with
  | nil =>
      intro _ acc
      simp [pendAux]
  | cons e l ih =>
      intro h acc
      simp only [msgMatchCount] at h
      by_cases he : e.type = "agent_message" ∧ tokenKeyOf e = key
      · rw [if_pos he] at h
        omega
      · rw [if_neg he, Nat.zero_add] at h
        simp only [pendAux]
        by_cases ht : e.type = "token" ∧ tokenKeyOf e = key
        · rw [show pendStep key acc e = acc ++ e.payload.text.getD "" from by
              simp [pendStep, ht],
            show pendStep key "" e = "" ++ e.payload.text.getD "" from by
              simp [pendStep, ht]]
          rw [ih h (acc ++ e.payload.text.getD ""),
            ih h ("" ++ e.payload.text.getD "")]
          rw [String.empty_append, String.append_assoc]
        · rw [show pendStep key acc e = acc from by simp [pendStep, ht, he],
            show pendStep key "" e = "" from by simp [pendStep, ht, he]]
          exact ih h acc

theorem pendAux_absorb (key : String) :
    ∀ l : List EventRecord, 1 ≤ msgMatchCount key l →
      ∀ acc, pendAux key l acc = pendAux key l "" := by
  intro l
  induction l with
  | nil =>
      intro h
      simp [msgMatchCount] at h
  | cons e l ih =>
      intro h acc
      simp only [msgMatchCount] at h
      simp only [pendAux]
      by_cases he : e.type = "agent_message" ∧ tokenKeyOf e = key
      · rw [show pendStep key acc e = "" from by
            simp [pendStep, he, he.1],
          show pendStep key "" e = "" from by
            simp [pendStep, he, he.1]]
      · rw [if_neg he, Nat.zero_add] at h
        by_cases ht : e.type = "token" ∧ tokenKeyOf e = key
        · rw [show pendStep key acc e = acc ++ e.payload.text.getD "" from by
              simp [pendStep, ht],
            show pendStep key "" e = "" ++ e.payload.text.getD "" from by
              simp [pendStep, ht]]
          rw [ih h (acc ++ e.payload.text.getD ""),
            ih h ("" ++ e.payload.text.getD "")]
        · rw [show pendStep key acc e = acc from by simp [pendStep, ht, he],
            show pendStep key "" e = "" from by simp [pendStep, ht, he]]
          exact ih h acc

theorem pend_eq_nil (k : String) :
    ∀ past : List EventRecord,
      (∀ pre t suf, past = pre ++ t :: suf → t.type = "token" →
        tokenKeyOf t = k → 1 ≤ msgMatchCount k suf) →
      pend past k = "" := by
  intro past
  induction past with
  | nil => intro _; rfl
  | cons e rest ih =>
      intro h
      have hrest : ∀ pre t suf, rest = pre ++ t :: suf → t.type = "token" →
          tokenKeyOf t = k → 1 ≤ msgMatchCount k suf := by
        intro pre t suf heq htt htk
        exact h (e :: pre) t suf (by rw [heq]; rfl) htt htk
      show pendAux k rest (pendStep k "" e) = ""
      by_cases ht : e.type = "token" ∧ tokenKeyOf e = k
      · have hcnt : 1 ≤ msgMatchCount k rest := h [] e rest rfl ht.1 ht.2
        rw [pendAux_absorb k rest hcnt]
        exact ih hrest
      · rw [show pendStep k "" e = "" from by simp [pendStep, ht]]
        exact ih hrest

theorem pend_eq_all (k : String) :
    ∀ past : List EventRecord,
      (∀ pre t suf, past = pre ++ t :: suf → t.type = "token" →
        tokenKeyOf t = k → msgMatchCount k suf = 0) →
      pend past k = allTokenText k past := by
  intro past
  induction past with
  | nil => intro _; rfl
  | cons e rest ih =>
      intro h
      have hrest : ∀ pre t suf, rest = pre ++ t :: suf → t.type = "token" →
          tokenKeyOf t = k → msgMatchCount k suf = 0 := by
        intro pre t suf heq htt htk
        exact h (e :: pre) t suf (by rw [heq]; rfl) htt htk
      show pendAux k rest (pendStep k "" e) = allTokenText k (e :: rest)
      by_cases ht : e.type = "token" ∧ tokenKeyOf e = k
      · have hcnt : msgMatchCount k rest = 0 := h [] e rest rfl ht.1 ht.2
        rw [show pendStep k "" e = "" ++ e.payload.text.getD "" from by
            simp [pendStep, ht]]
        rw [pendAux_no_msg k rest hcnt ("" ++ e.payload.text.getD "")]
        have hpend : pendAux k rest "" = allTokenText k rest := ih hrest
        rw [hpend]
        simp only [allTokenText]
        rw [if_pos ht, String.empty_append]
      · rw [show pendStep k "" e = "" from by simp [pendStep, ht]]
        have hpend : pendAux k rest "" = allTokenText k rest := ih hrest
        rw [hpend]
        simp only [allTokenText]
        rw [if_neg ht, String.empty_append]

theorem msgMatchCount_append (k : String) (l l' : List EventRecord) :
    msgMatchCount k (l ++ l') = msgMatchCount k l + msgMatchCount k l' := by
  induction l with
  | nil => simp [msgMatchCount]
  | cons e l ih =>
      simp only [List.cons_append, msgMatchCount, List.append_eq]
      rw [ih]
      omega

theorem adapterContract_suffix (l l' : List EventRecord)
    (h : adapterContract (l ++ l') = true) : adapterContract l' = true := by
  induction l with
  | nil => exact h
  | cons e l ih =>
      simp only [List.cons_append, adapterContract, Bool.and_eq_true] at h
      exact ih h.2

theorem tokensNonempty_suffix (l l' : List EventRecord)
    (h : tokensNonempty (l ++ l') = true) : tokensNonempty l' = true := by
  induction l with
  | nil => exact h
  | cons e l ih =>
      simp only [List.cons_append, tokensNonempty, Bool.and_eq_true] at h
      exact ih h.2

theorem contract_token_count (pre : List EventRecord) (t : EventRecord)
    (suf : List EventRecord)
    (hc : adapterContract (pre ++ t :: suf) = true)
    (ht : t.type = "token") : msgMatchCount (tokenKeyOf t) suf = 1 := by
  have h1 := adapterContract_suffix pre (t :: suf) hc
  simp only [adapterContract, Bool.and_eq_true, decide_eq_true_eq] at h1
  exact h1.1 ht

theorem tokensNonempty_head (t : EventRecord) (suf : List EventRecord)
    (h : tokensNonempty (t :: suf) = true) (ht : t.type = "token") :
    t.payload.text.getD "" ≠ "" := by
  simp only [tokensNonempty, Bool.and_eq_true, decide_eq_true_eq] at h
  exact h.1 ht

theorem buffersInv_token (past : List EventRecord)
    (B : List (String × String)) (e : EventRecord)
    (htok : e.type = "token") (htext : e.payload.text.getD "" ≠ "")
    (hinv : buffersInv past B) :
    buffersInv (past ++ [e]) (bufferToken B e) := by
  intro k
  unfold bufferToken
  rw [recordGet_set, pend_snoc]
  by_cases hk : k = tokenKeyOf e
  · rw [if_pos hk, hk]
    rw [show pendStep (tokenKeyOf e) (pend past (tokenKeyOf e)) e =
        pend past (tokenKeyOf e) ++ e.payload.text.getD "" from by
      simp [pendStep, htok]]
    have hne := append_ne_empty_right (pend past (tokenKeyOf e)) _ htext
    rw [if_neg hne]
    have hb := hinv (tokenKeyOf e)
    by_cases hp : pend past (tokenKeyOf e) = ""
    · rw [hb, if_pos hp, hp]
      rfl
    · rw [hb, if_neg hp]
      rfl
  · rw [if_neg hk]
    have hne2 : ¬ tokenKeyOf e = k := fun h => hk h.symm
    have hstep : pendStep k (pend past k) e = pend past k := by
      simp [pendStep, htok, hne2]
    rw [hstep]
    exact hinv k

theorem buffersInv_plain (past : List EventRecord)
    (B : List (String × String)) (e : EventRecord)
    (ht : ¬ e.type = "token") (hm : ¬ e.type = "agent_message")
    (hinv : buffersInv past B) : buffersInv (past ++ [e]) B := by
  intro k
  rw [pend_snoc]
  have hstep : pendStep k (pend past k) e = pend past k := by
    simp [pendStep, ht, hm]
  rw [hstep]
  exact hinv k

theorem buffersInv_msg_none (past : List EventRecord)
    (B : List (String × String)) (e : EventRecord)
    (hm : e.type = "agent_message")
    (hp : pend past (tokenKeyOf e) = "") (hinv : buffersInv past B) :
    buffersInv (past ++ [e]) B := by
  intro k
  rw [pend_snoc]
  by_cases hk : k = tokenKeyOf e
  · rw [hk]
    have hstep : pendStep (tokenKeyOf e) (pend past (tokenKeyOf e)) e = "" := by
      simp [pendStep, hm]
    rw [hstep, if_pos rfl]
    rw [hinv (tokenKeyOf e), if_pos hp]
  · have hne2 : ¬ tokenKeyOf e = k := fun h => hk h.symm
    have hstep : pendStep k (pend past k) e = pend past k := by
      simp [pendStep, hm, hne2]
    rw [hstep]
    exact hinv k

theorem buffersInv_msg_flush (past : List EventRecord)
    (B : List (String × String)) (e : EventRecord)
    (hm : e.type = "agent_message") (hinv : buffersInv past B) :
    buffersInv (past ++ [e]) (recordDelete B (tokenKeyOf e)) := by
  intro k
  rw [recordGet_delete, pend_snoc]
  by_cases hk : k = tokenKeyOf e
  · rw [if_pos hk, hk]
    have hstep : pendStep (tokenKeyOf e) (pend past (tokenKeyOf e)) e = "" := by
      simp [pendStep, hm]
    rw [hstep, if_pos rfl]
  · rw [if_neg hk]
    have hne2 : ¬ tokenKeyOf e = k := fun h => hk h.symm
    have hstep : pendStep k (pend past k) e = pend past k := by
      simp [pendStep, hm, hne2]
    rw [hstep]
    exact hinv k

theorem no_msg_after_token_in_past (past : List EventRecord)
    (e : EventRecord) (rest : List EventRecord)
    (hc : adapterContract (past ++ e :: rest) = true)
    (hm : e.type = "agent_message") :
    ∀ pre t suf, past = pre ++ t :: suf → t.type = "token" →
      tokenKeyOf t = tokenKeyOf e → msgMatchCount (tokenKeyOf e) suf = 0 := by
  intro pre t suf heq htt htk
  have hfull : past ++ e :: rest = pre ++ t :: (suf ++ e :: rest) := by
    rw [heq]
    simp
  rw [hfull] at hc
  have hcnt := contract_token_count pre t (suf ++ e :: rest) hc htt
  rw [htk, msgMatchCount_append] at hcnt
  have he1 : msgMatchCount (tokenKeyOf e) (e :: rest) =
      1 + msgMatchCount (tokenKeyOf e) rest := by
    simp [msgMatchCount, hm]
  omega

theorem all_tokens_matched (past : List EventRecord)
    (hc : adapterContract past = true) (k : String) :
    pend past k = "" := by
  apply pend_eq_nil
  intro pre t suf heq htt htk
  rw [heq] at hc
  have h1 := contract_token_count pre t suf hc htt
  rw [htk] at h1
  omega

theorem buildLinesAux_cons_token (e : EventRecord) (rest : List EventRecord)
    (i : Nat) (B : List (String × String)) (h : e.type = "token") :
    buildLinesAux true (e :: rest) i B =
      buildLinesAux true rest (i + 1) (bufferToken B e) := by
  simp [buildLinesAux, h]

theorem buildLinesAux_cons_other (e : EventRecord) (rest : List EventRecord)
    (i : Nat) (B : List (String × String)) (h : ¬ e.type = "token") :
    buildLinesAux true (e :: rest) i B =
      ((flushStep true i e B).1 ++ mainLine i e ::
        (buildLinesAux true rest (i + 1) (flushStep true i e B).2).1,
        (buildLinesAux true rest (i + 1) (flushStep true i e B).2).2) := by
  simp [buildLinesAux, h]

theorem specAux_cons_token (past : List EventRecord) (e : EventRecord)
    (rest : List EventRecord) (i : Nat) (h : e.type = "token") :
    eventLinesSpecAux past (e :: rest) i =
      eventLinesSpecAux (past ++ [e]) rest (i + 1) := by
  simp [eventLinesSpecAux, h]

theorem specAux_cons_msg (past : List EventRecord) (e : EventRecord)
    (rest : List EventRecord) (i : Nat) (h1 : ¬ e.type = "token")
    (h2 : e.type = "agent_message") :
    eventLinesSpecAux past (e :: rest) i =
      (if allTokenText (tokenKeyOf e) past = "" then [mainLine i e]
        else [streamLine i e (allTokenText (tokenKeyOf e) past),
          mainLine i e]) ++
        eventLinesSpecAux (past ++ [e]) rest (i + 1) := by
  simp [eventLinesSpecAux, h1, h2]

theorem specAux_cons_plain (past : List EventRecord) (e : EventRecord)
    (rest : List EventRecord) (i : Nat) (h1 : ¬ e.type = "token")
    (h2 : ¬ e.type = "agent_message") :
    eventLinesSpecAux past (e :: rest) i =
      mainLine i e :: eventLinesSpecAux (past ++ [e]) rest (i + 1) := by
  simp [eventLinesSpecAux, h1, h2]

theorem buildLinesAux_spec (rest : List EventRecord) :
    ∀ (past : List EventRecord) (B : List (String × String)),
      adapterContract (past ++ rest) = true →
      tokensNonempty (past ++ rest) = true →
      buffersInv past B →
      buildLinesAux true rest past.length B =
        (eventLinesSpecAux past rest past.length, []) := by
  induction rest with
  | nil =>
      intro past B hc _ hinv
      rw [List.append_nil] at hc
      have hB : B = [] := by
        apply recordGet_none_nil
        intro k
        rw [hinv k, if_pos (all_tokens_matched past hc k)]
      rw [hB]
      rfl
  | cons e rest ih =>
      intro past B hc ht hinv
      have hc' : adapterContract ((past ++ [e]) ++ rest) = true := by
        rw [List.append_assoc]
        simpa using hc
      have ht' : tokensNonempty ((past ++ [e]) ++ rest) = true := by
        rw [List.append_assoc]
        simpa using ht
      have hlen : (past ++ [e]).length = past.length + 1 := by simp
      by_cases htok : e.type = "token"
      · have htext : e.payload.text.getD "" ≠ "" := by
          apply tokensNonempty_head e rest ?_ htok
          exact tokensNonempty_suffix past (e :: rest) ht
        have hinv' := buffersInv_token past B e htok htext hinv
        have hrec := ih (past ++ [e]) (bufferToken B e) hc' ht' hinv'
        rw [hlen] at hrec
        rw [buildLinesAux_cons_token e rest past.length B htok, hrec,
          specAux_cons_token past e rest past.length htok]
      · by_cases hmsg : e.type = "agent_message"
        · have hall : pend past (tokenKeyOf e) =
              allTokenText (tokenKeyOf e) past :=
            pend_eq_all (tokenKeyOf e) past
              (no_msg_after_token_in_past past e rest hc hmsg)
          rw [buildLinesAux_cons_other e rest past.length B htok,
            specAux_cons_msg past e rest past.length htok hmsg]
          by_cases hp : pend past (tokenKeyOf e) = ""
          · have hflush : flushStep true past.length e B = ([], B) := by
              unfold flushStep
              rw [if_pos (⟨hmsg, rfl⟩ :
                e.type = "agent_message" ∧ true = true)]
              rw [hinv (tokenKeyOf e), if_pos hp]
            have hinv' := buffersInv_msg_none past B e hmsg hp hinv
            have hrec := ih (past ++ [e]) B hc' ht' hinv'
            rw [hlen] at hrec
            rw [hflush]
            dsimp only
            rw [hrec, if_pos (hall ▸ hp)]
            rfl
          · have hs := hinv (tokenKeyOf e)
            rw [if_neg hp] at hs
            have hflush : flushStep true past.length e B =
                ([streamLine past.length e (pend past (tokenKeyOf e))],
                  recordDelete B (tokenKeyOf e)) := by
              unfold flushStep
              rw [if_pos (⟨hmsg, rfl⟩ :
                e.type = "agent_message" ∧ true = true)]
              rw [hs]
              dsimp only
              rw [if_neg hp]
            have hinv' := buffersInv_msg_flush past B e hmsg hinv
            have hrec := ih (past ++ [e]) (recordDelete B (tokenKeyOf e))
              hc' ht' hinv'
            rw [hlen] at hrec
            rw [hflush]
            dsimp only
            rw [hrec, if_neg (hall ▸ hp), hall]
            rfl
        · have hflush : flushStep true past.length e B = ([], B) := by
            unfold flushStep
            rw [if_neg (fun h => hmsg h.1)]
          have hinv' := buffersInv_plain past B e htok hmsg hinv
          have hrec := ih (past ++ [e]) B hc' ht' hinv'
          rw [hlen] at hrec
          rw [buildLinesAux_cons_other e rest past.length B htok,
            specAux_cons_plain past e rest past.length htok hmsg, hflush]
          dsimp only
          rw [hrec]
          rfl

/-- C4 (amended): for every finite event list satisfying the adapter
contract in which every token event carries non-empty text, buildEventLines
with showTokens = true renders exactly the reference line list: for each
agent message whose earlier matching token texts concatenate to a non-empty
string there is exactly one token_stream line holding that concatenation,
placed immediately before the agent_message line (and no token_stream line
when the concatenation is empty), and the walk ends with an empty
tokenBuffers record, so no leftover stream-tail lines are appended. -/
theorem buildEventLines_token_streams (events : List EventRecord)
    (hc : adapterContract events = true)
    (ht : tokensNonempty events = true) :
    buildEventLines events true = eventLinesSpec events ∧
      (buildLinesAux true events 0 []).2 = [] := by
  have hinv : buffersInv [] [] := by
    intro k
    rfl
  have h := buildLinesAux_spec events [] [] (by simpa using hc)
    (by simpa using ht) hinv
  constructor
  · unfold buildEventLines eventLinesSpec
    rw [show ([] : List EventRecord).length = 0 from rfl] at h
    rw [h]
    simp
  · rw [show ([] : List EventRecord).length = 0 from rfl] at h
    rw [h]

/-- Witness for C4 at a concrete two-token stream and its agent message. -/
theorem buildEventLines_token_streams_witness :
    adapterContract c4good = true ∧ tokensNonempty c4good = true ∧
      buildEventLines c4good true = eventLinesSpec c4good :=
  ⟨by decide, by decide,
    (buildEventLines_token_streams c4good (by decide) (by decide)).1⟩

/-- C4 counterexample: the list c4bad satisfies the adapter contract, yet
its single token carries the empty text, so buildEventLines emits no
token_stream line before the agent_message line and leaves a leftover
stream-tail line at the end of the output — contradicting the claim as
stated. -/
theorem buildEventLines_counterexample :
    adapterContract c4bad = true ∧
      (buildEventLines c4bad true).map EventLine.id =
        ["1-agent_message", "stream-tail-m1:Recorder"] := by
  constructor
  · decide
  · decide

end Meeting
